import Mathlib

/-!
Shallow embedding of `expense_tracker.py` (a CLI expense ledger).

The persistent CSV file is modelled one level above the byte stream: a file
is a `List Row`, one `Row` of six string cells per data line (the header row
and the csv module's quoting are the external library's concern and are
faithfully inverse to each other).  Python's `int(...)`, `Decimal(...)` and
`datetime.strptime(..., "%Y-%m-%d")` parsers and the corresponding `str(...)`
/ `isoformat()` renderers are implemented over `List Char`.  `Decimal` is
modelled as a coefficient/exponent pair with exact rational value; the
default-context precision rounding of the `decimal` module (28 significant
digits) is idealized as exact arithmetic, and the special values
(`NaN`, `Infinity`) are outside the monetary model.
-/

namespace ExpenseTracker

/-! ### Characters, digits, and Python string helpers -/

/-- ASCII whitespace stripped by Python's `str.strip()`
(space, tab, newline, carriage return, vertical tab, form feed). -/
def isSpace (c : Char) : Bool :=
  c.toNat = 32 || (9 ≤ c.toNat && c.toNat ≤ 13)

/-- ASCII decimal digit. -/
def isDigitCh (c : Char) : Bool :=
  48 ≤ c.toNat && c.toNat ≤ 57

/-- The character for a single decimal digit `n ≤ 9`. -/
def digitChar (n : Nat) : Char := Char.ofNat (48 + n)

/-- Fuel-driven digit renderer (structural recursion so the kernel can
evaluate it; the fuel is always sufficient when it exceeds `n`). -/
def natDigitsF : Nat → Nat → List Char
  | 0, _ => []
  | fuel + 1, n =>
    if n < 10 then [digitChar n]
    else natDigitsF fuel (n / 10) ++ [digitChar (n % 10)]

/-- Decimal digit string of a natural number, most significant first
(mirrors Python `str` on a non-negative `int`). -/
def natDigits (n : Nat) : List Char := natDigitsF (n + 1) n

/-- Value of a digit string (leading zeros allowed). -/
def digitsVal (l : List Char) : Nat :=
  l.foldl (fun a c => a * 10 + (c.toNat - 48)) 0

/-- Python `str.strip()` on a character list. -/
def pyStripL (l : List Char) : List Char :=
  ((l.dropWhile isSpace).reverse.dropWhile isSpace).reverse

/-- Python `str.strip()`. -/
def pyStrip (s : String) : String := ⟨pyStripL s.data⟩

/-- Python `str.split(sep)` for a one-character separator (the recursive
call never returns `[]`, so the `headD`/`tail` recombination is exact). -/
def splitOnCh (c : Char) : List Char → List (List Char)
  | [] => [[]]
  | x :: xs =>
    let r := splitOnCh c xs
    if x = c then [] :: r else (x :: r.headD []) :: r.tail

/-- Zero-padded decimal rendering, total width `k` (Python `f"{n:0kd}"`
for a natural number). -/
def natPad (k n : Nat) : List Char :=
  List.replicate (k - (natDigits n).length) '0' ++ natDigits n

/-- Python `str` on an `int`. -/
def intChars (n : Int) : List Char :=
  if n < 0 then '-' :: natDigits n.natAbs else natDigits n.natAbs

/-- Python `"%+d"` rendering: the sign is always written. -/
def intCharsSigned (n : Int) : List Char :=
  if n < 0 then '-' :: natDigits n.natAbs else '+' :: natDigits n.natAbs

/-- Python `int(str)`: optional surrounding whitespace, optional sign,
one or more ASCII digits, nothing else. -/
def pyIntL (l : List Char) : Option Int :=
  let l1 := l.dropWhile isSpace
  let l2 : List Char := if l1.head? = some '-' ∨ l1.head? = some '+' then l1.tail else l1
  let ds := l2.takeWhile isDigitCh
  let rest := (l2.dropWhile isDigitCh).dropWhile isSpace
  if ds = [] ∨ rest ≠ [] then none
  else if l1.head? = some '-' then some (-(digitsVal ds : Int))
  else some ((digitsVal ds : Int))

/-- Python `int(...)` on a string. -/
def pyInt (s : String) : Option Int := pyIntL s.data

/-! ### `decimal.Decimal` -/

/-- A finite `decimal.Decimal`: signed coefficient `m` and exponent `e`;
the numeric value is `m * 10 ^ e`.  (The sign of a zero is not tracked.) -/
structure Dec where
  m : Int
  e : Int
deriving DecidableEq, Repr

/-- Exact rational value of a `Dec`. -/
def Dec.val (d : Dec) : ℚ := (d.m : ℚ) * (10 : ℚ) ^ d.e

/-- Exact `Decimal` addition: align to the smaller exponent and add
coefficients (context-precision rounding idealized away). -/
def decAdd (a b : Dec) : Dec :=
  let e := min a.e b.e
  ⟨a.m * 10 ^ (a.e - e).toNat + b.m * 10 ^ (b.e - e).toNat, e⟩

/-- Python `sum(...)` over `Decimal`s (the start value `0` has
representation `⟨0, 0⟩`). -/
def decSum (l : List Dec) : Dec := l.foldl decAdd ⟨0, 0⟩

/-- Position of the decimal point in `str(Decimal)` (the to-scientific-string
algorithm): `leftdigits` in plain notation (`e ≤ 0` and adjusted exponent at
least `-6`), `1` in scientific notation. -/
def decDotplace (d : Dec) : Int :=
  if d.e ≤ 0 ∧ -6 < d.e + ((natDigits d.m.natAbs).length : Int) then
    d.e + ((natDigits d.m.natAbs).length : Int)
  else 1

/-- Digits-with-point part of `str(Decimal)`. -/
def decCoreL (d : Dec) : List Char :=
  let ds := natDigits d.m.natAbs
  let dotplace := decDotplace d
  if dotplace ≤ 0 then
    '0' :: '.' :: (List.replicate (-dotplace).toNat '0' ++ ds)
  else if (ds.length : Int) ≤ dotplace then
    ds ++ List.replicate (dotplace.toNat - ds.length) '0'
  else
    ds.take dotplace.toNat ++ '.' :: ds.drop dotplace.toNat

/-- Exponent part of `str(Decimal)` (empty in plain notation). -/
def decExpPartL (d : Dec) : List Char :=
  if d.e + ((natDigits d.m.natAbs).length : Int) = decDotplace d then []
  else 'E' :: intCharsSigned (d.e + ((natDigits d.m.natAbs).length : Int) - decDotplace d)

/-- Python `str(Decimal)`: optional sign, core, exponent part. -/
def decChars (d : Dec) : List Char :=
  (if d.m < 0 then ['-'] else []) ++ decCoreL d ++ decExpPartL d

/-- Python `str(Decimal)` as a string. -/
def decStr (d : Dec) : String := ⟨decChars d⟩

/-- Exponent clause of the `Decimal` numeric grammar: optional sign then
one or more digits, nothing after. -/
def pyDecExp (l : List Char) : Option Int :=
  let l1 : List Char := if l.head? = some '-' ∨ l.head? = some '+' then l.tail else l
  let ds := l1.takeWhile isDigitCh
  if ds = [] ∨ l1.dropWhile isDigitCh ≠ [] then none
  else if l.head? = some '-' then some (-(digitsVal ds : Int))
  else some ((digitsVal ds : Int))

/-- The sign-free part of `Decimal(str)` parsing: integer part, optional
fractional part (at least one digit overall), optional exponent clause;
`neg` records the already-consumed sign. -/
def pyDecBody (neg : Bool) (l1 : List Char) : Option Dec :=
  let ip := l1.takeWhile isDigitCh
  let r1 := l1.dropWhile isDigitCh
  let fp : List Char := if r1.head? = some '.' then r1.tail.takeWhile isDigitCh else []
  let r2 : List Char := if r1.head? = some '.' then r1.tail.dropWhile isDigitCh else r1
  if ip = [] ∧ fp = [] then none
  else
    let expOpt : Option Int :=
      if r2 = [] then some 0
      else if r2.head? = some 'E' ∨ r2.head? = some 'e' then pyDecExp r2.tail
      else none
    let co : Int := (digitsVal (ip ++ fp) : Int)
    expOpt.map (fun ex => ⟨if neg then -co else co, ex - fp.length⟩)

/-- `Decimal(str)` on a finite numeric string: optional sign, then the
sign-free body.  Special values (`NaN`, `Infinity`) are not monetary values
and parse as `none` here. -/
def pyDecL (l : List Char) : Option Dec :=
  pyDecBody (decide (l.head? = some '-'))
    (if l.head? = some '-' ∨ l.head? = some '+' then l.tail else l)

/-- `Decimal(...)` on a string. -/
def pyDec (s : String) : Option Dec := pyDecL s.data

/-! ### Dates (`datetime.date`) -/

/-- A `datetime.date`: year, month, day. -/
structure Date where
  y : Nat
  m : Nat
  d : Nat
deriving DecidableEq, Repr

/-- `datetime.date.min`, i.e. 0001-01-01. -/
def dateMin : Date := ⟨1, 1, 1⟩

/-- Gregorian leap-year rule. -/
def isLeap (y : Nat) : Bool :=
  (y % 4 = 0 && y % 100 ≠ 0) || y % 400 = 0

/-- Days in a month. -/
def daysInMonth (y m : Nat) : Nat :=
  if m = 2 then (if isLeap y then 29 else 28)
  else if m = 4 ∨ m = 6 ∨ m = 9 ∨ m = 11 then 30
  else 31

/-- The dates representable as `datetime.date` objects. -/
def validDate (dt : Date) : Bool :=
  decide (1 ≤ dt.y) && decide (dt.y ≤ 9999) && decide (1 ≤ dt.m) && decide (dt.m ≤ 12)
    && decide (1 ≤ dt.d) && decide (dt.d ≤ daysInMonth dt.y dt.m)

/-- `date.isoformat()`: `YYYY-MM-DD`, zero padded. -/
def isoformatL (dt : Date) : List Char :=
  natPad 4 dt.y ++ '-' :: (natPad 2 dt.m ++ '-' :: natPad 2 dt.d)

/-- `date.isoformat()` as a string. -/
def isoformat (dt : Date) : String := ⟨isoformatL dt⟩

/-- `datetime.strptime(s, "%Y-%m-%d").date()`: `%Y` is exactly four digits,
`%m` and `%d` one or two, and the result must be a constructible date. -/
def pyDateL (l : List Char) : Option Date :=
  match splitOnCh '-' l with
  | [ys, ms, ds] =>
    if ys.length = 4 ∧ ys.all isDigitCh ∧
        1 ≤ ms.length ∧ ms.length ≤ 2 ∧ ms.all isDigitCh ∧
        1 ≤ ds.length ∧ ds.length ≤ 2 ∧ ds.all isDigitCh then
      let dt : Date := ⟨digitsVal ys, digitsVal ms, digitsVal ds⟩
      if validDate dt then some dt else none
    else none
  | _ => none

/-- `strptime` date parsing on a string. -/
def pyDate (s : String) : Option Date := pyDateL s.data

/-- Python `<=` on `datetime.date` (lexicographic on year, month, day). -/
def dateLe (a b : Date) : Bool :=
  decide (a.y < b.y) ||
    (decide (a.y = b.y) &&
      (decide (a.m < b.m) || (decide (a.m = b.m) && decide (a.d ≤ b.d))))

/-! ### Records, the store, and its operations -/

/-- One data row of `expenses.csv`, as read back by `csv.DictReader`:
six string cells in the fixed column order. -/
structure Row where
  id : String
  date : String
  category : String
  amount : String
  currency : String
  description : String
deriving DecidableEq, Repr

/-- An in-memory expense record (the dict built by `load_expenses`). -/
structure Expense where
  id : Int
  date : Option Date
  category : String
  amount : Dec
  currency : String
  description : String
deriving DecidableEq, Repr

/-- The body of the `load_expenses` loop for one row: skip the row when the
id cell is empty (falsy) or `int(...)` fails; otherwise build the record,
defaulting an unparseable/blank date to `None`, an unparseable/blank amount
to `Decimal("0")`, a blank category to `"uncategorized"` and a blank
currency to `"USD"` (all text cells stripped). -/
def parseRow (row : Row) : Option Expense :=
  if row.id = "" then none
  else
    match pyInt row.id with
    | none => none
    | some eid =>
      let dstr := pyStrip row.date
      let astr := pyStrip row.amount
      some
        { id := eid
          date := if dstr = "" then none else pyDate dstr
          category := if pyStrip row.category = "" then "uncategorized" else pyStrip row.category
          amount := if astr = "" then ⟨0, 0⟩ else (pyDec astr).getD ⟨0, 0⟩
          currency := if pyStrip row.currency = "" then "USD" else pyStrip row.currency
          description := pyStrip row.description }

/-- `load_expenses()`: parse every row in file order, silently skipping the
rows `parseRow` rejects. -/
def load_expenses (rows : List Row) : List Expense :=
  rows.filterMap parseRow

/-- The row `save_expenses` writes for one record: id via `str`, date via
`isoformat` (empty when absent), amount via `str(Decimal)`, text fields
as-is. -/
def rowOf (e : Expense) : Row :=
  { id := ⟨intChars e.id⟩
    date := match e.date with | some d => isoformat d | none => ""
    category := e.category
    amount := decStr e.amount
    currency := e.currency
    description := e.description }

/-- `save_expenses(expenses)`: rewrite the whole file, one row per record. -/
def save_expenses (es : List Expense) : List Row :=
  es.map rowOf

/-- `next_id(expenses)`: `1` when empty, else `max(id) + 1`
(Python `max` over the ids is a left fold from the first element). -/
def next_id (es : List Expense) : Int :=
  match es with
  | [] => 1
  | x :: xs => xs.foldl (fun a e => max a e.id) x.id + 1

/-- Outcome of `delete_expense` for a given id: the early "no expenses"
return, the "nothing deleted" return, or the list that is saved. -/
inductive DeleteResult where
  | noExpenses
  | notFound
  | deleted (remaining : List Expense)
deriving DecidableEq, Repr

/-- `delete_expense` after the id has been read: keep the records whose id
differs; if nothing was dropped report not-found and do not save, else save
the kept list. -/
def delete_expense (es : List Expense) (eid : Int) : DeleteResult :=
  if es = [] then .noExpenses
  else
    let kept := es.filter (fun e => e.id ≠ eid)
    if kept.length = es.length then .notFound else .deleted kept

/-! ### The aggregator -/

/-- Sort key of `list_expenses`: the record's date, or `date.min` when
absent (`x["date"] or date.min`). -/
def dkey (e : Expense) : Date := e.date.getD dateMin

/-- `sorted(expenses, key=..., reverse=True)`: a stable descending sort by
date key, modelled by the stable `insertionSort` under the total preorder
`dkey b ≤ dkey a`. -/
def sortDesc (es : List Expense) : List Expense :=
  List.insertionSort (fun a b => dateLe (dkey b) (dkey a) = true) es

/-- `list_expenses(expenses, limit)`: `None` prints "No expenses found",
otherwise the first `limit` records of the date-descending order. -/
def list_expenses (es : List Expense) (limit : Nat) : Option (List Expense) :=
  if es = [] then none
  else some ((sortDesc es).take limit)

/-- Outcome of `summarize_expenses`: the early "no expenses to summarize"
return, the month-format error, the "no expenses for {title}" return, or a
summary (title, total, category breakdown in insertion order, displayed
currency). -/
inductive SummarizeResult where
  | noExpenses
  | invalidMonth
  | emptyScope (title : String)
  | summary (title : String) (total : Dec) (byCat : List (String × Dec)) (currency : String)
deriving DecidableEq, Repr

/-- Month-argument parsing in `summarize_expenses`:
`month.split("-")` then `int(parts[0])`, `int(parts[1])`; any failure
(missing part or bad int) is caught and reported as a format error. -/
def pyMonth (s : String) : Option (Int × Int) :=
  match splitOnCh '-' s.data with
  | p0 :: p1 :: _ =>
    match pyIntL p0, pyIntL p1 with
    | some y, some m => some (y, m)
    | _, _ => none
  | _ => none

/-- `f"{m:02d}"` for the month of the summary title. -/
def pad2Int (n : Int) : List Char :=
  if 0 ≤ n then natPad 2 n.natAbs else intChars n

/-- `f"Summary for {year}-{mon:02d}"`. -/
def summaryTitle (y m : Int) : String :=
  "Summary for " ++ ⟨intChars y⟩ ++ "-" ++ ⟨pad2Int m⟩

/-- The month test of the filtering loop: date present and matching year
and month. -/
def matchesMonth (y m : Int) (e : Expense) : Bool :=
  match e.date with
  | some d => ((d.y : Int) == y) && ((d.m : Int) == m)
  | none => false

/-- One `by_cat` update: `setdefault(cat, Decimal("0"))` then `+=`
(insertion order preserved; a new category is appended). -/
def addToCat (acc : List (String × Dec)) (cat : String) (amt : Dec) :
    List (String × Dec) :=
  match acc with
  | [] => [(cat, decAdd ⟨0, 0⟩ amt)]
  | (c, v) :: rest =>
    if c = cat then (c, decAdd v amt) :: rest else (c, v) :: addToCat rest cat amt

/-- The `by_cat` dict of `summarize_expenses`. -/
def byCatFold (filtered : List Expense) : List (String × Dec) :=
  filtered.foldl (fun acc e => addToCat acc e.category e.amount) []

/-- Tail of `summarize_expenses` once `filtered` and `title` are fixed:
empty scope report, or total, category breakdown, and the currency of
`filtered[0]`. -/
def finishSummary (title : String) (filtered : List Expense) : SummarizeResult :=
  match filtered with
  | [] => .emptyScope title
  | first :: rest =>
    .summary title (decSum ((first :: rest).map Expense.amount))
      (byCatFold (first :: rest)) first.currency

/-- `summarize_expenses(month)` over an already-loaded record list.
`if month:` is false both for `None` and for the empty string. -/
def summarize_expenses (es : List Expense) (month : Option String) : SummarizeResult :=
  if es = [] then .noExpenses
  else
    let mval := month.getD ""
    if mval = "" then finishSummary "Summary (all time)" es
    else
      match pyMonth mval with
      | none => .invalidMonth
      | some ym => finishSummary (summaryTitle ym.1 ym.2) (es.filter (matchesMonth ym.1 ym.2))

/-! ### Lemmas: characters and digit strings -/

theorem digitChar_toNat {n : Nat} (h : n < 10) : (digitChar n).toNat = 48 + n := by
  interval_cases n <;> decide

theorem isDigitCh_digitChar {n : Nat} (h : n < 10) : isDigitCh (digitChar n) = true := by
  interval_cases n <;> decide

theorem isDigitCh_not_space {c : Char} (h : isDigitCh c = true) : isSpace c = false := by
  simp only [isDigitCh, Bool.and_eq_true, decide_eq_true_eq] at h
  simp only [isSpace, Bool.or_eq_false_iff, Bool.and_eq_false_iff, decide_eq_false_iff_not]
  omega

theorem isDigitCh_ne {c x : Char} (h : isDigitCh c = true) (hx : isDigitCh x = false) :
    c ≠ x := by
  intro e
  rw [e, hx] at h
  cases h

theorem natDigitsF_congr : ∀ (f1 : Nat), ∀ (f2 n : Nat), n < f1 → n < f2 →
    natDigitsF f1 n = natDigitsF f2 n := by
  intro f1
  induction f1 with
  | zero => omega
  | succ f ih =>
    intro f2 n h1 h2
    obtain ⟨g, rfl⟩ : ∃ g, f2 = g + 1 := ⟨f2 - 1, by omega⟩
    rw [natDigitsF, natDigitsF]
    by_cases h10 : n < 10
    · rw [if_pos h10, if_pos h10]
    · rw [if_neg h10, if_neg h10]
      have hlt : n / 10 < n := Nat.div_lt_self (by omega) (by omega)
      rw [ih g (n / 10) (by omega) (by omega)]

/-- The intended recursion equation for `natDigits`. -/
theorem natDigits_eq (n : Nat) :
    natDigits n = if n < 10 then [digitChar n] else natDigits (n / 10) ++ [digitChar (n % 10)] := by
  rw [natDigits, natDigitsF]
  by_cases h10 : n < 10
  · rw [if_pos h10, if_pos h10]
  · rw [if_neg h10, if_neg h10, natDigits]
    have hlt : n / 10 < n := Nat.div_lt_self (by omega) (by omega)
    rw [natDigitsF_congr n (n / 10 + 1) (n / 10) (by omega) (by omega)]

theorem natDigits_ne_nil (n : Nat) : natDigits n ≠ [] := by
  rw [natDigits_eq]
  split <;> simp

theorem natDigits_digits {n : Nat} : ∀ c ∈ natDigits n, isDigitCh c = true := by
  induction n using Nat.strong_induction_on with
  | _ n ih =>
    by_cases h : n < 10
    · rw [natDigits_eq, if_pos h]
      intro c hc
      rw [List.mem_singleton] at hc
      subst hc
      exact isDigitCh_digitChar h
    · rw [natDigits_eq, if_neg h]
      intro c hc
      rcases List.mem_append.1 hc with h1 | h1
      · exact ih (n / 10) (Nat.div_lt_self (by omega) (by omega)) c h1
      · rw [List.mem_singleton] at h1
        subst h1
        exact isDigitCh_digitChar (by omega)

theorem digitsVal_foldl (l : List Char) (a : Nat) :
    l.foldl (fun a c => a * 10 + (c.toNat - 48)) a = a * 10 ^ l.length + digitsVal l := by
  induction l generalizing a with
  | nil => simp [digitsVal]
  | cons c cs ih =>
    simp only [List.foldl_cons, digitsVal, List.length_cons]
    rw [ih, ih (0 * 10 + (c.toNat - 48))]
    ring

theorem digitsVal_append (a b : List Char) :
    digitsVal (a ++ b) = digitsVal a * 10 ^ b.length + digitsVal b := by
  simp only [digitsVal, List.foldl_append]
  rw [digitsVal_foldl]
  rfl

theorem digitsVal_natDigits (n : Nat) : digitsVal (natDigits n) = n := by
  induction n using Nat.strong_induction_on with
  | _ n ih =>
    by_cases h : n < 10
    · rw [natDigits_eq, if_pos h]
      simp [digitsVal, digitChar_toNat h]
    · rw [natDigits_eq, if_neg h, digitsVal_append]
      rw [ih (n / 10) (Nat.div_lt_self (by omega) (by omega))]
      have h10 : n % 10 < 10 := by omega
      simp [digitsVal, digitChar_toNat h10]
      omega

theorem natDigits_length_le : ∀ (k n : Nat), n < 10 ^ k → 1 ≤ k → (natDigits n).length ≤ k := by
  intro k n
  induction n using Nat.strong_induction_on generalizing k with
  | _ n ih =>
    intro hk h1
    by_cases h : n < 10
    · rw [natDigits_eq, if_pos h]
      simpa using h1
    · rw [natDigits_eq, if_neg h]
      obtain ⟨k', rfl⟩ : ∃ k', k = k' + 1 := ⟨k - 1, by omega⟩
      have hk' : 1 ≤ k' := by
        rcases Nat.lt_or_ge k' 1 with h' | h'
        · interval_cases k'
          · simp [pow_succ] at hk
            omega
        · exact h'
      have hdiv : n / 10 < 10 ^ k' := by
        rw [Nat.div_lt_iff_lt_mul (by norm_num)]
        calc n < 10 ^ (k' + 1) := hk
        _ = 10 ^ k' * 10 := by rw [pow_succ]
      have := ih (n / 10) (Nat.div_lt_self (by omega) (by omega)) k' hdiv hk'
      simp only [List.length_append, List.length_singleton]
      omega

theorem natPad_length {k n : Nat} (h : (natDigits n).length ≤ k) :
    (natPad k n).length = k := by
  simp only [natPad, List.length_append, List.length_replicate]
  omega

theorem natPad_digits {k n : Nat} : ∀ c ∈ natPad k n, isDigitCh c = true := by
  intro c hc
  rcases List.mem_append.1 hc with h1 | h1
  · rw [List.eq_of_mem_replicate h1]
    decide
  · exact natDigits_digits c h1

theorem digitsVal_replicate_zero (k : Nat) : digitsVal (List.replicate k '0') = 0 := by
  induction k with
  | zero => rfl
  | succ k ih =>
    rw [List.replicate_succ]
    have : digitsVal ('0' :: List.replicate k '0') = digitsVal (['0'] ++ List.replicate k '0') := rfl
    rw [this, digitsVal_append, ih]
    have h0 : digitsVal ['0'] = 0 := by decide
    rw [h0]
    ring

theorem digitsVal_replicate_zero_append (k : Nat) (l : List Char) :
    digitsVal (List.replicate k '0' ++ l) = digitsVal l := by
  rw [digitsVal_append, digitsVal_replicate_zero]
  ring

theorem digitsVal_natPad (k n : Nat) : digitsVal (natPad k n) = n := by
  rw [natPad, digitsVal_replicate_zero_append, digitsVal_natDigits]

/-! ### Lemmas: takeWhile, dropWhile, strip, split -/

theorem dropWhile_eq_self_of_all {p : Char → Bool} {l : List Char}
    (h : ∀ c ∈ l, p c = false) : l.dropWhile p = l := by
  cases l with
  | nil => rfl
  | cons x xs =>
    rw [List.dropWhile_cons, h x (List.mem_cons_self x xs)]
    simp

theorem takeWhile_append_cons {p : Char → Bool} {A : List Char}
    (hA : ∀ c ∈ A, p c = true) {c : Char} (hc : p c = false) (B : List Char) :
    (A ++ c :: B).takeWhile p = A ∧ (A ++ c :: B).dropWhile p = c :: B := by
  induction A with
  | nil =>
    simp [List.takeWhile_cons, List.dropWhile_cons, hc]
  | cons x xs ih =>
    have hx : p x = true := hA x (List.mem_cons_self x xs)
    have ihs := ih (fun c hc => hA c (List.mem_cons_of_mem x hc))
    simp only [List.cons_append, List.takeWhile_cons, List.dropWhile_cons, hx, if_true]
    exact ⟨by rw [ihs.1], by rw [ihs.2]⟩

theorem takeWhile_all {p : Char → Bool} {A : List Char} (hA : ∀ c ∈ A, p c = true) :
    A.takeWhile p = A ∧ A.dropWhile p = [] := by
  induction A with
  | nil => simp
  | cons x xs ih =>
    have hx : p x = true := hA x (List.mem_cons_self x xs)
    have ihs := ih (fun c hc => hA c (List.mem_cons_of_mem x hc))
    simp only [List.takeWhile_cons, List.dropWhile_cons, hx, if_true]
    exact ⟨by rw [ihs.1], by rw [ihs.2]⟩

theorem pyStripL_eq_self {l : List Char} (h : ∀ c ∈ l, isSpace c = false) :
    pyStripL l = l := by
  unfold pyStripL
  rw [dropWhile_eq_self_of_all h,
    dropWhile_eq_self_of_all (fun c hc => h c (List.mem_reverse.1 hc)),
    List.reverse_reverse]

theorem pyStrip_mk_eq_self {l : List Char} (h : ∀ c ∈ l, isSpace c = false) :
    pyStrip ⟨l⟩ = (⟨l⟩ : String) := by
  show (⟨pyStripL l⟩ : String) = ⟨l⟩
  rw [pyStripL_eq_self h]

theorem splitOnCh_of_not_mem {c : Char} {A : List Char} (h : ∀ a ∈ A, a ≠ c) :
    splitOnCh c A = [A] := by
  induction A with
  | nil => rfl
  | cons x xs ih =>
    rw [splitOnCh]
    have hx : ¬(x = c) := h x (List.mem_cons_self x xs)
    rw [if_neg hx, ih (fun a ha => h a (List.mem_cons_of_mem x ha))]
    rfl

theorem splitOnCh_append {c : Char} {A : List Char} (h : ∀ a ∈ A, a ≠ c) (B : List Char) :
    splitOnCh c (A ++ c :: B) = A :: splitOnCh c B := by
  induction A with
  | nil =>
    rw [List.nil_append, splitOnCh, if_pos rfl]
  | cons x xs ih =>
    rw [List.cons_append, splitOnCh]
    have hx : ¬(x = c) := h x (List.mem_cons_self x xs)
    rw [if_neg hx, ih (fun a ha => h a (List.mem_cons_of_mem x ha))]
    rfl

/-! ### Lemmas: `int()` inverts `str` -/

theorem pyIntL_intChars (n : Int) : pyIntL (intChars n) = some n := by
  have hall : ∀ x ∈ natDigits n.natAbs, isDigitCh x = true := natDigits_digits
  have htake := (takeWhile_all hall).1
  have hdrop := (takeWhile_all hall).2
  obtain ⟨c, cs, hds⟩ := List.exists_cons_of_ne_nil (natDigits_ne_nil n.natAbs)
  have hcd : isDigitCh c = true := by
    apply natDigits_digits c
    rw [hds]
    exact List.mem_cons_self c cs
  by_cases hn : n < 0
  · rw [intChars, if_pos hn]
    unfold pyIntL
    simp only []
    have h1 : List.dropWhile isSpace ('-' :: natDigits n.natAbs) = '-' :: natDigits n.natAbs := by
      rw [List.dropWhile_cons]
      have hsp : isSpace '-' = false := by decide
      rw [hsp]
      simp
    rw [h1, List.head?_cons, List.tail_cons]
    rw [if_pos (Or.inl rfl), htake, hdrop, List.dropWhile_nil]
    rw [if_neg (by simp [natDigits_ne_nil]), if_pos rfl]
    rw [digitsVal_natDigits]
    congr 1
    omega
  · rw [intChars, if_neg hn]
    unfold pyIntL
    simp only []
    have h1 : List.dropWhile isSpace (natDigits n.natAbs) = natDigits n.natAbs := by
      rw [hds, List.dropWhile_cons, isDigitCh_not_space hcd]
      simp
    have hhd : (natDigits n.natAbs).head? = some c := by
      rw [hds]
      rfl
    have hnm : ¬((natDigits n.natAbs).head? = some '-' ∨ (natDigits n.natAbs).head? = some '+') := by
      rw [hhd]
      rintro (h | h) <;> exact isDigitCh_ne hcd (by decide) (Option.some.inj h)
    rw [h1, if_neg hnm, htake, hdrop, List.dropWhile_nil]
    rw [if_neg (by simp [natDigits_ne_nil])]
    rw [if_neg (fun h => hnm (Or.inl h))]
    rw [digitsVal_natDigits]
    congr 1
    omega

/-! ### Lemmas: `Decimal()` inverts `str(Decimal)` -/

theorem digitsVal_cons_zero (l : List Char) : digitsVal ('0' :: l) = digitsVal l := by
  have : digitsVal ('0' :: l) = digitsVal (['0'] ++ l) := rfl
  rw [this, digitsVal_append]
  have h0 : digitsVal ['0'] = 0 := by decide
  rw [h0]
  ring

theorem pyDecExp_intCharsSigned (n : Int) : pyDecExp (intCharsSigned n) = some n := by
  have hall : ∀ x ∈ natDigits n.natAbs, isDigitCh x = true := natDigits_digits
  have htake := (takeWhile_all hall).1
  have hdrop := (takeWhile_all hall).2
  by_cases hn : n < 0
  · rw [intCharsSigned, if_pos hn]
    unfold pyDecExp
    simp only []
    rw [List.head?_cons, List.tail_cons, if_pos (Or.inl rfl), htake, hdrop]
    rw [if_neg (by simp [natDigits_ne_nil]), if_pos rfl, digitsVal_natDigits]
    congr 1
    omega
  · rw [intCharsSigned, if_neg hn]
    unfold pyDecExp
    simp only []
    rw [List.head?_cons, List.tail_cons, if_pos (Or.inr rfl), htake, hdrop]
    rw [if_neg (by simp [natDigits_ne_nil]), if_neg (by decide), digitsVal_natDigits]
    congr 1
    omega

theorem pyDecBody_eval_P1 (neg : Bool) (d : Dec)
    (hp : d.e ≤ 0 ∧ -6 < d.e + ((natDigits d.m.natAbs).length : Int))
    (h1 : d.e + ((natDigits d.m.natAbs).length : Int) ≤ 0) :
    pyDecBody neg (decCoreL d ++ decExpPartL d) =
      some ⟨if neg then -(d.m.natAbs : Int) else (d.m.natAbs : Int), d.e⟩ := by
  have ddot : isDigitCh '.' = false := by decide
  have hdp : decDotplace d = d.e + ((natDigits d.m.natAbs).length : Int) := by
    rw [decDotplace, if_pos hp]
  have hexp : decExpPartL d = [] := by
    rw [decExpPartL, hdp, if_pos rfl]
  set Z : List Char :=
    List.replicate (-(d.e + ((natDigits d.m.natAbs).length : Int))).toNat '0' with hZ
  have hcore : decCoreL d = '0' :: '.' :: (Z ++ natDigits d.m.natAbs) := by
    rw [decCoreL]
    try simp only []
    rw [hdp, if_pos h1]
  rw [hcore, hexp, List.append_nil]
  have hZD : ∀ c ∈ Z ++ natDigits d.m.natAbs, isDigitCh c = true := by
    intro c hc
    rcases List.mem_append.1 hc with h | h
    · rw [List.eq_of_mem_replicate h]
      decide
    · exact natDigits_digits c h
  have h0 : ∀ c ∈ ['0'], isDigitCh c = true := by
    intro c hc
    rw [List.mem_singleton] at hc
    subst hc
    decide
  have hsp := takeWhile_append_cons h0 ddot (Z ++ natDigits d.m.natAbs)
  have hT : List.takeWhile isDigitCh ('0' :: '.' :: (Z ++ natDigits d.m.natAbs)) = ['0'] := hsp.1
  have hDr : List.dropWhile isDigitCh ('0' :: '.' :: (Z ++ natDigits d.m.natAbs)) =
      '.' :: (Z ++ natDigits d.m.natAbs) := hsp.2
  unfold pyDecBody
  try simp only []
  rw [hT, hDr]
  simp only [List.head?_cons, List.tail_cons, eq_self_iff_true, if_true, List.cons_ne_nil,
    false_and, if_false]
  rw [(takeWhile_all hZD).1, (takeWhile_all hZD).2]
  simp only [eq_self_iff_true, if_true, Option.map_some']
  have hco : digitsVal (['0'] ++ (Z ++ natDigits d.m.natAbs)) = d.m.natAbs := by
    have : (['0'] ++ (Z ++ natDigits d.m.natAbs)) = '0' :: (Z ++ natDigits d.m.natAbs) := rfl
    rw [this, digitsVal_cons_zero, hZ, digitsVal_replicate_zero_append, digitsVal_natDigits]
  rw [hco]
  simp only [Option.some.injEq, Dec.mk.injEq]
  refine ⟨trivial, ?_⟩
  rw [List.length_append, hZ, List.length_replicate]
  push_cast
  omega

theorem pyDecBody_eval_P2 (neg : Bool) (d : Dec)
    (hp : d.e ≤ 0 ∧ -6 < d.e + ((natDigits d.m.natAbs).length : Int))
    (h1 : ¬(d.e + ((natDigits d.m.natAbs).length : Int) ≤ 0))
    (h2 : ¬(((natDigits d.m.natAbs).length : Int) ≤ d.e + ((natDigits d.m.natAbs).length : Int))) :
    pyDecBody neg (decCoreL d ++ decExpPartL d) =
      some ⟨if neg then -(d.m.natAbs : Int) else (d.m.natAbs : Int), d.e⟩ := by
  have ddot : isDigitCh '.' = false := by decide
  have hdp : decDotplace d = d.e + ((natDigits d.m.natAbs).length : Int) := by
    rw [decDotplace, if_pos hp]
  have hexp : decExpPartL d = [] := by
    rw [decExpPartL, hdp, if_pos rfl]
  set t : Nat := (d.e + ((natDigits d.m.natAbs).length : Int)).toNat with ht
  have hcore : decCoreL d =
      (natDigits d.m.natAbs).take t ++ '.' :: (natDigits d.m.natAbs).drop t := by
    rw [decCoreL]
    try simp only []
    rw [hdp, if_neg h1, if_neg h2]
  rw [hcore, hexp, List.append_nil]
  have htkD : ∀ c ∈ (natDigits d.m.natAbs).take t, isDigitCh c = true :=
    fun c hc => natDigits_digits c (List.take_subset _ _ hc)
  have hdrD : ∀ c ∈ (natDigits d.m.natAbs).drop t, isDigitCh c = true :=
    fun c hc => natDigits_digits c (List.drop_subset _ _ hc)
  have hsp := takeWhile_append_cons htkD ddot ((natDigits d.m.natAbs).drop t)
  have hL1 : 1 ≤ (natDigits d.m.natAbs).length := by
    cases hh : natDigits d.m.natAbs with
    | nil => exact absurd hh (natDigits_ne_nil _)
    | cons a l => simp [hh]
  have htne : (natDigits d.m.natAbs).take t ≠ [] := by
    intro h
    have := congrArg List.length h
    rw [List.length_take] at this
    simp only [List.length_nil] at this
    omega
  unfold pyDecBody
  try simp only []
  rw [hsp.1, hsp.2]
  simp only [List.head?_cons, List.tail_cons, eq_self_iff_true, if_true, htne,
    false_and, if_false]
  rw [(takeWhile_all hdrD).1, (takeWhile_all hdrD).2]
  simp only [eq_self_iff_true, if_true, Option.map_some']
  rw [List.take_append_drop, digitsVal_natDigits]
  simp only [Option.some.injEq, Dec.mk.injEq]
  refine ⟨trivial, ?_⟩
  rw [List.length_drop]
  push_cast
  omega

theorem pyDecBody_eval_P3 (neg : Bool) (d : Dec)
    (hp : d.e ≤ 0 ∧ -6 < d.e + ((natDigits d.m.natAbs).length : Int))
    (h1 : ¬(d.e + ((natDigits d.m.natAbs).length : Int) ≤ 0))
    (h2 : ((natDigits d.m.natAbs).length : Int) ≤ d.e + ((natDigits d.m.natAbs).length : Int)) :
    pyDecBody neg (decCoreL d ++ decExpPartL d) =
      some ⟨if neg then -(d.m.natAbs : Int) else (d.m.natAbs : Int), d.e⟩ := by
  have he0 : d.e = 0 := by omega
  have hdp : decDotplace d = d.e + ((natDigits d.m.natAbs).length : Int) := by
    rw [decDotplace, if_pos hp]
  have hexp : decExpPartL d = [] := by
    rw [decExpPartL, hdp, if_pos rfl]
  have hcore : decCoreL d = natDigits d.m.natAbs := by
    rw [decCoreL]
    try simp only []
    rw [hdp, if_neg h1, if_pos h2]
    have hz : (d.e + ((natDigits d.m.natAbs).length : Int)).toNat -
        (natDigits d.m.natAbs).length = 0 := by omega
    rw [hz, List.replicate_zero]
    exact List.append_nil _
  rw [hcore, hexp, List.append_nil]
  have hall : ∀ x ∈ natDigits d.m.natAbs, isDigitCh x = true := natDigits_digits
  have hnonone : ¬((List.head? ([] : List Char)) = some '.') := by decide
  unfold pyDecBody
  try simp only []
  rw [(takeWhile_all hall).1, (takeWhile_all hall).2]
  simp only [hnonone, if_false, natDigits_ne_nil, false_and, if_false, eq_self_iff_true,
    if_true, Option.map_some']
  rw [List.append_nil, digitsVal_natDigits]
  simp only [Option.some.injEq, Dec.mk.injEq]
  refine ⟨trivial, ?_⟩
  simp only [List.length_nil]
  omega

theorem pyDecBody_eval_S1 (neg : Bool) (d : Dec)
    (hnp : ¬(d.e ≤ 0 ∧ -6 < d.e + ((natDigits d.m.natAbs).length : Int)))
    (hL : ((natDigits d.m.natAbs).length : Int) ≤ 1) :
    pyDecBody neg (decCoreL d ++ decExpPartL d) =
      some ⟨if neg then -(d.m.natAbs : Int) else (d.m.natAbs : Int), d.e⟩ := by
  have dE : isDigitCh 'E' = false := by decide
  have hL1 : 1 ≤ (natDigits d.m.natAbs).length := by
    cases hh : natDigits d.m.natAbs with
    | nil => exact absurd hh (natDigits_ne_nil _)
    | cons a l => simp [hh]
  have hdp : decDotplace d = 1 := by
    rw [decDotplace, if_neg hnp]
  have hld : d.e + ((natDigits d.m.natAbs).length : Int) ≠ 1 := by
    intro hld1
    rcases not_and_or.mp hnp with he | hle
    · omega
    · omega
  have hexp : decExpPartL d =
      'E' :: intCharsSigned (d.e + ((natDigits d.m.natAbs).length : Int) - 1) := by
    rw [decExpPartL, hdp, if_neg hld]
  have hcore : decCoreL d = natDigits d.m.natAbs := by
    rw [decCoreL]
    try simp only []
    rw [hdp, if_neg (by omega : ¬((1 : Int) ≤ 0)), if_pos hL]
    have hz : (1 : Int).toNat - (natDigits d.m.natAbs).length = 0 := by omega
    rw [hz, List.replicate_zero]
    exact List.append_nil _
  rw [hcore, hexp]
  have hall : ∀ x ∈ natDigits d.m.natAbs, isDigitCh x = true := natDigits_digits
  have hsp := takeWhile_append_cons hall dE
    (intCharsSigned (d.e + ((natDigits d.m.natAbs).length : Int) - 1))
  have hEdot : ((some 'E' : Option Char) = some '.') = False := by simp
  unfold pyDecBody
  try simp only []
  rw [hsp.1, hsp.2]
  simp only [List.head?_cons, List.tail_cons, hEdot, if_false, natDigits_ne_nil, false_and,
    List.cons_ne_nil, eq_self_iff_true, true_or, if_true]
  rw [pyDecExp_intCharsSigned, Option.map_some']
  rw [List.append_nil, digitsVal_natDigits]
  simp only [Option.some.injEq, Dec.mk.injEq]
  refine ⟨trivial, ?_⟩
  simp only [List.length_nil]
  omega

theorem pyDecBody_eval_S2 (neg : Bool) (d : Dec)
    (hnp : ¬(d.e ≤ 0 ∧ -6 < d.e + ((natDigits d.m.natAbs).length : Int)))
    (hL : ¬(((natDigits d.m.natAbs).length : Int) ≤ 1)) :
    pyDecBody neg (decCoreL d ++ decExpPartL d) =
      some ⟨if neg then -(d.m.natAbs : Int) else (d.m.natAbs : Int), d.e⟩ := by
  have ddot : isDigitCh '.' = false := by decide
  have dE : isDigitCh 'E' = false := by decide
  have hL1 : 1 ≤ (natDigits d.m.natAbs).length := by omega
  have hdp : decDotplace d = 1 := by
    rw [decDotplace, if_neg hnp]
  have hld : d.e + ((natDigits d.m.natAbs).length : Int) ≠ 1 := by
    intro hld1
    rcases not_and_or.mp hnp with he | hle
    · omega
    · omega
  have hexp : decExpPartL d =
      'E' :: intCharsSigned (d.e + ((natDigits d.m.natAbs).length : Int) - 1) := by
    rw [decExpPartL, hdp, if_neg hld]
  have hcore : decCoreL d =
      (natDigits d.m.natAbs).take 1 ++ '.' :: (natDigits d.m.natAbs).drop 1 := by
    rw [decCoreL]
    try simp only []
    rw [hdp, if_neg (by omega : ¬((1 : Int) ≤ 0)), if_neg hL]
    norm_num
  rw [hcore, hexp, List.append_assoc, List.cons_append]
  have htkD : ∀ c ∈ (natDigits d.m.natAbs).take 1, isDigitCh c = true :=
    fun c hc => natDigits_digits c (List.take_subset _ _ hc)
  have hdrD : ∀ c ∈ (natDigits d.m.natAbs).drop 1, isDigitCh c = true :=
    fun c hc => natDigits_digits c (List.drop_subset _ _ hc)
  have hsp := takeWhile_append_cons htkD ddot
    ((natDigits d.m.natAbs).drop 1 ++
      'E' :: intCharsSigned (d.e + ((natDigits d.m.natAbs).length : Int) - 1))
  have hsp2 := takeWhile_append_cons hdrD dE
    (intCharsSigned (d.e + ((natDigits d.m.natAbs).length : Int) - 1))
  have htne : (natDigits d.m.natAbs).take 1 ≠ [] := by
    intro h
    have := congrArg List.length h
    rw [List.length_take] at this
    simp only [List.length_nil] at this
    omega
  unfold pyDecBody
  try simp only []
  rw [hsp.1, hsp.2]
  simp only [List.head?_cons, List.tail_cons, eq_self_iff_true, if_true, htne, false_and,
    if_false]
  rw [hsp2.1, hsp2.2]
  simp only [List.head?_cons, List.cons_ne_nil, if_false, eq_self_iff_true, true_or, if_true,
    List.tail_cons]
  rw [pyDecExp_intCharsSigned, Option.map_some']
  rw [List.take_append_drop, digitsVal_natDigits]
  simp only [Option.some.injEq, Dec.mk.injEq]
  refine ⟨trivial, ?_⟩
  rw [List.length_drop]
  push_cast
  omega

theorem pyDecBody_eval (neg : Bool) (d : Dec) :
    pyDecBody neg (decCoreL d ++ decExpPartL d) =
      some ⟨if neg then -(d.m.natAbs : Int) else (d.m.natAbs : Int), d.e⟩ := by
  by_cases hp : d.e ≤ 0 ∧ -6 < d.e + ((natDigits d.m.natAbs).length : Int)
  · by_cases h1 : d.e + ((natDigits d.m.natAbs).length : Int) ≤ 0
    · exact pyDecBody_eval_P1 neg d hp h1
    · by_cases h2 : ((natDigits d.m.natAbs).length : Int) ≤
          d.e + ((natDigits d.m.natAbs).length : Int)
      · exact pyDecBody_eval_P3 neg d hp h1 h2
      · exact pyDecBody_eval_P2 neg d hp h1 h2
  · by_cases hL : ((natDigits d.m.natAbs).length : Int) ≤ 1
    · exact pyDecBody_eval_S1 neg d hp hL
    · exact pyDecBody_eval_S2 neg d hp hL

theorem decCoreL_head (d : Dec) :
    ∃ c cs, decCoreL d = c :: cs ∧ isDigitCh c = true := by
  obtain ⟨c, cs, hD⟩ := List.exists_cons_of_ne_nil (natDigits_ne_nil d.m.natAbs)
  have hc : isDigitCh c = true := by
    apply natDigits_digits c
    rw [hD]
    exact List.mem_cons_self _ _
  rw [decCoreL]
  try simp only []
  by_cases h1 : decDotplace d ≤ 0
  · rw [if_pos h1]
    exact ⟨'0', _, rfl, by decide⟩
  · rw [if_neg h1]
    by_cases h2 : ((natDigits d.m.natAbs).length : Int) ≤ decDotplace d
    · rw [if_pos h2, hD, List.cons_append]
      exact ⟨c, _, rfl, hc⟩
    · rw [if_neg h2]
      obtain ⟨t, ht⟩ : ∃ t, (decDotplace d).toNat = t + 1 := ⟨(decDotplace d).toNat - 1, by omega⟩
      rw [hD, ht, List.take_succ_cons, List.cons_append]
      exact ⟨c, _, rfl, hc⟩

theorem pyDecL_decChars (d : Dec) : pyDecL (decChars d) = some d := by
  obtain ⟨c0, cs0, hcore, hc0⟩ := decCoreL_head d
  by_cases hm : d.m < 0
  · have hl : decChars d = '-' :: (decCoreL d ++ decExpPartL d) := by
      rw [decChars, if_pos hm]
      rfl
    unfold pyDecL
    rw [hl, List.head?_cons, List.tail_cons, if_pos (Or.inl rfl)]
    have hdec : decide ((some '-' : Option Char) = some '-') = true := by decide
    rw [hdec, pyDecBody_eval]
    obtain ⟨dm, de⟩ := d
    simp only [Option.some.injEq, Dec.mk.injEq, eq_self_iff_true, and_true, if_true] at hm ⊢
    omega
  · have hl : decChars d = decCoreL d ++ decExpPartL d := by
      rw [decChars, if_neg hm, List.nil_append]
    unfold pyDecL
    have hhd : (decCoreL d ++ decExpPartL d).head? = some c0 := by
      rw [hcore, List.cons_append, List.head?_cons]
    have hnm : ¬((decCoreL d ++ decExpPartL d).head? = some '-' ∨
        (decCoreL d ++ decExpPartL d).head? = some '+') := by
      rw [hhd]
      rintro (h | h) <;> exact isDigitCh_ne hc0 (by decide) (Option.some.inj h)
    rw [hl, if_neg hnm]
    have hdec : decide ((decCoreL d ++ decExpPartL d).head? = some '-') = false :=
      decide_eq_false (fun h => hnm (Or.inl h))
    rw [hdec, pyDecBody_eval]
    obtain ⟨dm, de⟩ := d
    simp only [Option.some.injEq, Dec.mk.injEq, eq_self_iff_true, and_true,
      Bool.false_eq_true, if_false] at hm ⊢
    omega

theorem pyDec_decStr (d : Dec) : pyDec (decStr d) = some d := pyDecL_decChars d

/-! ### Lemmas: rendered strings contain no whitespace -/

theorem intCharsSigned_not_space {n : Int} : ∀ c ∈ intCharsSigned n, isSpace c = false := by
  intro c hc
  rw [intCharsSigned] at hc
  by_cases hn : n < 0
  · rw [if_pos hn] at hc
    rcases List.mem_cons.1 hc with h | h
    · subst h
      decide
    · exact isDigitCh_not_space (natDigits_digits c h)
  · rw [if_neg hn] at hc
    rcases List.mem_cons.1 hc with h | h
    · subst h
      decide
    · exact isDigitCh_not_space (natDigits_digits c h)

theorem intChars_not_space {n : Int} : ∀ c ∈ intChars n, isSpace c = false := by
  intro c hc
  rw [intChars] at hc
  by_cases hn : n < 0
  · rw [if_pos hn] at hc
    rcases List.mem_cons.1 hc with h | h
    · subst h
      decide
    · exact isDigitCh_not_space (natDigits_digits c h)
  · rw [if_neg hn] at hc
    exact isDigitCh_not_space (natDigits_digits c hc)

theorem decCoreL_not_space (d : Dec) : ∀ c ∈ decCoreL d, isSpace c = false := by
  intro c hc
  rw [decCoreL] at hc
  by_cases h1 : decDotplace d ≤ 0
  · rw [if_pos h1] at hc
    rcases List.mem_cons.1 hc with h | h
    · subst h
      decide
    rcases List.mem_cons.1 h with h' | h'
    · subst h'
      decide
    rcases List.mem_append.1 h' with h2 | h2
    · rw [List.eq_of_mem_replicate h2]
      decide
    · exact isDigitCh_not_space (natDigits_digits c h2)
  · rw [if_neg h1] at hc
    by_cases h2 : ((natDigits d.m.natAbs).length : Int) ≤ decDotplace d
    · rw [if_pos h2] at hc
      rcases List.mem_append.1 hc with h | h
      · exact isDigitCh_not_space (natDigits_digits c h)
      · rw [List.eq_of_mem_replicate h]
        decide
    · rw [if_neg h2] at hc
      rcases List.mem_append.1 hc with h | h
      · exact isDigitCh_not_space (natDigits_digits c (List.take_subset _ _ h))
      rcases List.mem_cons.1 h with h' | h'
      · subst h'
        decide
      · exact isDigitCh_not_space (natDigits_digits c (List.drop_subset _ _ h'))

theorem decExpPartL_not_space (d : Dec) : ∀ c ∈ decExpPartL d, isSpace c = false := by
  intro c hc
  rw [decExpPartL] at hc
  by_cases h1 : d.e + ((natDigits d.m.natAbs).length : Int) = decDotplace d
  · rw [if_pos h1] at hc
    cases hc
  · rw [if_neg h1] at hc
    rcases List.mem_cons.1 hc with h | h
    · subst h
      decide
    · exact intCharsSigned_not_space c h

theorem decChars_not_space (d : Dec) : ∀ c ∈ decChars d, isSpace c = false := by
  intro c hc
  rw [decChars] at hc
  rcases List.mem_append.1 hc with h | h
  · rcases List.mem_append.1 h with h' | h'
    · by_cases hm : d.m < 0
      · rw [if_pos hm] at h'
        rw [List.mem_singleton] at h'
        subst h'
        decide
      · rw [if_neg hm] at h'
        cases h'
    · exact decCoreL_not_space d c h'
  · exact decExpPartL_not_space d c h

theorem decChars_ne_nil (d : Dec) : decChars d ≠ [] := by
  obtain ⟨c0, cs0, hcore, _⟩ := decCoreL_head d
  rw [decChars, hcore]
  intro h
  rcases List.append_eq_nil.1 h with ⟨h1, _⟩
  rcases List.append_eq_nil.1 h1 with ⟨_, h2⟩
  cases h2

theorem natPad_not_space {k n : Nat} : ∀ c ∈ natPad k n, isSpace c = false :=
  fun c hc => isDigitCh_not_space (natPad_digits c hc)

theorem isoformatL_not_space (dt : Date) : ∀ c ∈ isoformatL dt, isSpace c = false := by
  intro c hc
  rw [isoformatL] at hc
  rcases List.mem_append.1 hc with h | h
  · exact natPad_not_space c h
  rcases List.mem_cons.1 h with h' | h'
  · subst h'
    decide
  rcases List.mem_append.1 h' with h2 | h2
  · exact natPad_not_space c h2
  rcases List.mem_cons.1 h2 with h3 | h3
  · subst h3
    decide
  · exact natPad_not_space c h3

theorem isoformatL_ne_nil (dt : Date) : isoformatL dt ≠ [] := by
  rw [isoformatL]
  intro h
  rcases List.append_eq_nil.1 h with ⟨h1, h2⟩
  cases h2

/-! ### Lemmas: `strptime` inverts `isoformat` -/

theorem daysInMonth_le (y m : Nat) : daysInMonth y m ≤ 31 := by
  rw [daysInMonth]
  split
  · split <;> omega
  · split <;> omega

theorem pyDateL_isoformatL {dt : Date} (h : validDate dt = true) :
    pyDateL (isoformatL dt) = some dt := by
  have hb : 1 ≤ dt.y ∧ dt.y ≤ 9999 ∧ 1 ≤ dt.m ∧ dt.m ≤ 12 ∧ 1 ≤ dt.d ∧
      dt.d ≤ daysInMonth dt.y dt.m := by
    rw [validDate] at h
    simp only [Bool.and_eq_true, decide_eq_true_eq] at h
    tauto
  have hdim := daysInMonth_le dt.y dt.m
  have hy4 : (natDigits dt.y).length ≤ 4 := by
    apply natDigits_length_le 4 dt.y ?_ (by omega)
    have : (10 : Nat) ^ 4 = 10000 := by norm_num
    omega
  have hm2 : (natDigits dt.m).length ≤ 2 := by
    apply natDigits_length_le 2 dt.m ?_ (by omega)
    have : (10 : Nat) ^ 2 = 100 := by norm_num
    omega
  have hd2 : (natDigits dt.d).length ≤ 2 := by
    apply natDigits_length_le 2 dt.d ?_ (by omega)
    have : (10 : Nat) ^ 2 = 100 := by norm_num
    omega
  have hsA : ∀ a ∈ natPad 4 dt.y, a ≠ '-' :=
    fun a ha => isDigitCh_ne (natPad_digits a ha) (by decide)
  have hsB : ∀ a ∈ natPad 2 dt.m, a ≠ '-' :=
    fun a ha => isDigitCh_ne (natPad_digits a ha) (by decide)
  have hsC : ∀ a ∈ natPad 2 dt.d, a ≠ '-' :=
    fun a ha => isDigitCh_ne (natPad_digits a ha) (by decide)
  have hs : splitOnCh '-' (isoformatL dt) =
      [natPad 4 dt.y, natPad 2 dt.m, natPad 2 dt.d] := by
    rw [isoformatL, splitOnCh_append hsA, splitOnCh_append hsB, splitOnCh_of_not_mem hsC]
  rw [pyDateL, hs]
  dsimp only
  have hcond : (natPad 4 dt.y).length = 4 ∧ (natPad 4 dt.y).all isDigitCh ∧
      1 ≤ (natPad 2 dt.m).length ∧ (natPad 2 dt.m).length ≤ 2 ∧
        (natPad 2 dt.m).all isDigitCh ∧
      1 ≤ (natPad 2 dt.d).length ∧ (natPad 2 dt.d).length ≤ 2 ∧
        (natPad 2 dt.d).all isDigitCh := by
    refine ⟨natPad_length hy4, List.all_eq_true.2 natPad_digits, ?_, ?_,
      List.all_eq_true.2 natPad_digits, ?_, ?_, List.all_eq_true.2 natPad_digits⟩ <;>
      rw [natPad_length (by omega)]
    · omega
    · omega
  rw [if_pos hcond]
  have hval : (⟨digitsVal (natPad 4 dt.y), digitsVal (natPad 2 dt.m),
      digitsVal (natPad 2 dt.d)⟩ : Date) = dt := by
    rw [digitsVal_natPad, digitsVal_natPad, digitsVal_natPad]
  rw [hval, if_pos h]

/-! ### Lemmas: the store round-trip -/

theorem intChars_ne_nil (n : Int) : intChars n ≠ [] := by
  rw [intChars]
  split
  · simp
  · exact natDigits_ne_nil _

theorem parseRow_rowOf (e : Expense)
    (hdate : ∀ dt, e.date = some dt → validDate dt = true)
    (hcat : pyStrip e.category = e.category) (hcatne : e.category ≠ "")
    (hcur : pyStrip e.currency = e.currency) (hcurne : e.currency ≠ "")
    (hdesc : pyStrip e.description = e.description) :
    parseRow (rowOf e) = some e := by
  have hid : (rowOf e).id = ⟨intChars e.id⟩ := rfl
  have hcat' : (rowOf e).category = e.category := rfl
  have hamt : (rowOf e).amount = decStr e.amount := rfl
  have hcur' : (rowOf e).currency = e.currency := rfl
  have hdesc' : (rowOf e).description = e.description := rfl
  have hidne : ¬((⟨intChars e.id⟩ : String) = "") := by
    intro h
    have h2 := congrArg String.data h
    exact intChars_ne_nil e.id h2
  have hpid : pyInt ⟨intChars e.id⟩ = some e.id := pyIntL_intChars e.id
  rw [parseRow, hid, if_neg hidne, hpid]
  dsimp only
  have hstripamt : pyStrip (decStr e.amount) = decStr e.amount :=
    pyStrip_mk_eq_self (decChars_not_space e.amount)
  have hamtne : ¬(decStr e.amount = ("" : String)) := by
    intro h
    have h2 := congrArg String.data h
    exact decChars_ne_nil e.amount h2
  have hpamt : pyDec (decStr e.amount) = some e.amount := pyDec_decStr e.amount
  rw [hcat', hamt, hcur', hdesc', hstripamt, if_neg hamtne, hpamt]
  rw [hcat, if_neg hcatne, hcur, if_neg hcurne, hdesc, Option.getD_some]
  cases hd : e.date with
  | none =>
    have hrd : (rowOf e).date = "" := by
      rw [rowOf, hd]
    rw [hrd]
    have hstripnil : pyStrip "" = "" := rfl
    rw [hstripnil, if_pos rfl]
    rw [← hd]
  | some dt =>
    have hrd : (rowOf e).date = isoformat dt := by
      rw [rowOf, hd]
    rw [hrd]
    have hstripdt : pyStrip (isoformat dt) = isoformat dt :=
      pyStrip_mk_eq_self (isoformatL_not_space dt)
    have hdtne : ¬(isoformat dt = ("" : String)) := by
      intro h
      have h2 := congrArg String.data h
      exact isoformatL_ne_nil dt h2
    have hpdt : pyDate (isoformat dt) = some dt := pyDateL_isoformatL (hdate dt hd)
    rw [hstripdt, if_neg hdtne, hpdt, ← hd]

/-- The spec's "valid record set" membership: a positive id, a constructible
calendar date when present, exact-decimal amount, non-empty category and
currency, free-text description. -/
def validExpense (e : Expense) : Prop :=
  0 < e.id ∧ (∀ dt, e.date = some dt → validDate dt = true) ∧
    e.category ≠ "" ∧ e.currency ≠ ""

/-- Text fields free of leading/trailing whitespace (the load-side strip
leaves them unchanged). -/
def trimmedExpense (e : Expense) : Prop :=
  pyStrip e.category = e.category ∧ pyStrip e.currency = e.currency ∧
    pyStrip e.description = e.description

theorem load_save_of_valid_trimmed (R : List Expense)
    (h : ∀ e ∈ R, validExpense e ∧ trimmedExpense e) :
    load_expenses (save_expenses R) = R := by
  induction R with
  | nil => rfl
  | cons e rest ih =>
    obtain ⟨⟨_, hdate, hcatne, hcurne⟩, ⟨hcat, hcur, hdesc⟩⟩ :=
      h e (List.mem_cons_self e rest)
    have hrow : parseRow (rowOf e) = some e :=
      parseRow_rowOf e hdate hcat hcatne hcur hcurne hdesc
    rw [save_expenses, List.map_cons, load_expenses, List.filterMap_cons_some hrow]
    have ihr := ih (fun x hx => h x (List.mem_cons_of_mem e hx))
    rw [load_expenses, save_expenses] at ihr
    rw [ihr]

/-! ### Lemmas: date order and sorting -/

theorem dateLe_total (a b : Date) : dateLe a b = true ∨ dateLe b a = true := by
  simp only [dateLe, Bool.or_eq_true, Bool.and_eq_true, decide_eq_true_eq]
  omega

theorem dateLe_trans {a b c : Date} (h1 : dateLe a b = true) (h2 : dateLe b c = true) :
    dateLe a c = true := by
  simp only [dateLe, Bool.or_eq_true, Bool.and_eq_true, decide_eq_true_eq] at h1 h2 ⊢
  omega

theorem dateLe_antisymm {a b : Date} (h1 : dateLe a b = true) (h2 : dateLe b a = true) :
    a = b := by
  obtain ⟨ya, ma, da⟩ := a
  obtain ⟨yb, mb, db⟩ := b
  simp only [dateLe, Bool.or_eq_true, Bool.and_eq_true, decide_eq_true_eq] at h1 h2
  simp only [Date.mk.injEq]
  omega

theorem sortDesc_sorted (es : List Expense) :
    List.Pairwise (fun a b => dateLe (dkey b) (dkey a) = true) (sortDesc es) := by
  haveI : IsTotal Expense (fun a b => dateLe (dkey b) (dkey a) = true) :=
    ⟨fun a b => dateLe_total (dkey b) (dkey a)⟩
  haveI : IsTrans Expense (fun a b => dateLe (dkey b) (dkey a) = true) :=
    ⟨fun _ _ _ h1 h2 => dateLe_trans h2 h1⟩
  exact List.sorted_insertionSort _ es

/-! ### Lemmas: exact decimal arithmetic -/

theorem decAdd_val (a b : Dec) : (decAdd a b).val = a.val + b.val := by
  have hten : (10 : ℚ) ≠ 0 := by norm_num
  rw [decAdd]
  try simp only []
  rw [Dec.val, Dec.val, Dec.val]
  try simp only []
  push_cast
  have h1 : ((10 : ℚ)) ^ ((a.e - min a.e b.e).toNat) = (10 : ℚ) ^ (a.e - min a.e b.e) := by
    rw [← zpow_natCast]
    congr 1
    omega
  have h2 : ((10 : ℚ)) ^ ((b.e - min a.e b.e).toNat) = (10 : ℚ) ^ (b.e - min a.e b.e) := by
    rw [← zpow_natCast]
    congr 1
    omega
  rw [h1, h2, add_mul, mul_assoc, mul_assoc, ← zpow_add₀ hten, ← zpow_add₀ hten,
    sub_add_cancel, sub_add_cancel]

theorem foldl_decAdd_val (l : List Dec) (a : Dec) :
    (l.foldl decAdd a).val = a.val + (l.map Dec.val).sum := by
  induction l generalizing a with
  | nil => simp
  | cons x xs ih =>
    rw [List.foldl_cons, ih, decAdd_val, List.map_cons, List.sum_cons]
    ring

theorem decSum_val (l : List Dec) : (decSum l).val = (l.map Dec.val).sum := by
  rw [decSum, foldl_decAdd_val]
  have h0 : (⟨0, 0⟩ : Dec).val = 0 := by
    rw [Dec.val]
    norm_num
  rw [h0, zero_add]

/-! ### Lemmas: the category breakdown -/

theorem addToCat_lookup (acc : List (String × Dec)) (cat : String) (amt : Dec) (c : String) :
    (addToCat acc cat amt).lookup c =
      if c = cat then some (decAdd ((acc.lookup c).getD ⟨0, 0⟩) amt)
      else acc.lookup c := by
  induction acc with
  | nil =>
    rw [addToCat]
    by_cases h : c = cat
    · subst h
      simp [List.lookup]
    · have hck : (c == cat) = false := by simp [h]
      simp [List.lookup, h, hck]
  | cons kv rest ih =>
    obtain ⟨k, v⟩ := kv
    by_cases hk : k = cat
    · subst hk
      rw [addToCat, if_pos rfl]
      by_cases hc : c = k
      · subst hc
        simp [List.lookup_cons]
      · have hck : (c == k) = false := by simp [hc]
        simp only [List.lookup_cons, hck]
        rw [if_neg hc]
    · rw [addToCat, if_neg hk]
      by_cases hc : c = k
      · subst hc
        have hck : (c == c) = true := by simp
        simp only [List.lookup_cons, hck]
        rw [if_neg (show ¬(c = cat) from fun h => hk h)]
      · have hck : (c == k) = false := by simp [hc]
        simp only [List.lookup_cons, hck, ih]

theorem foldl_addToCat_val (l : List Expense) (acc : List (String × Dec)) (c : String) :
    (((l.foldl (fun acc e => addToCat acc e.category e.amount) acc).lookup c).getD
        ⟨0, 0⟩).val =
      ((acc.lookup c).getD ⟨0, 0⟩).val +
        ((l.filter (fun e => e.category = c)).map (fun e => e.amount.val)).sum := by
  induction l generalizing acc with
  | nil => simp
  | cons e rest ih =>
    rw [List.foldl_cons, ih, addToCat_lookup]
    by_cases hc : c = e.category
    · rw [if_pos hc]
      have hfe : List.filter (fun x => decide (x.category = c)) (e :: rest) =
          e :: List.filter (fun x => decide (x.category = c)) rest := by
        rw [List.filter_cons]
        simp [hc]
      rw [hfe, List.map_cons, List.sum_cons, Option.getD_some, decAdd_val]
      ring
    · rw [if_neg hc]
      have hfe : List.filter (fun x => decide (x.category = c)) (e :: rest) =
          List.filter (fun x => decide (x.category = c)) rest := by
        rw [List.filter_cons]
        have hd : decide (e.category = c) = false := by
          simp only [decide_eq_false_iff_not]
          exact fun h => hc h.symm
        simp [hd]
      rw [hfe]

theorem foldl_addToCat_isSome (l : List Expense) (acc : List (String × Dec)) (c : String) :
    ((l.foldl (fun acc e => addToCat acc e.category e.amount) acc).lookup c).isSome = true ↔
      ((acc.lookup c).isSome = true ∨ c ∈ l.map Expense.category) := by
  induction l generalizing acc with
  | nil => simp
  | cons e rest ih =>
    rw [List.foldl_cons, ih, addToCat_lookup]
    by_cases hc : c = e.category
    · rw [if_pos hc]
      simp [hc]
    · rw [if_neg hc]
      simp only [List.map_cons, List.mem_cons]
      constructor
      · rintro (h | h)
        · exact Or.inl h
        · exact Or.inr (Or.inr h)
      · rintro (h | h | h)
        · exact Or.inl h
        · exact absurd h hc
        · exact Or.inr h

theorem byCatFold_spec (filtered : List Expense) (c : String)
    (hc : c ∈ filtered.map Expense.category) :
    ∃ v, (byCatFold filtered).lookup c = some v ∧
      v.val = ((filtered.filter (fun e => e.category = c)).map
        (fun e => e.amount.val)).sum := by
  have hsome : ((byCatFold filtered).lookup c).isSome = true := by
    rw [byCatFold]
    exact (foldl_addToCat_isSome filtered [] c).2 (Or.inr hc)
  obtain ⟨v, hv⟩ := Option.isSome_iff_exists.1 hsome
  refine ⟨v, hv, ?_⟩
  have hval := foldl_addToCat_val filtered [] c
  rw [show (filtered.foldl (fun acc e => addToCat acc e.category e.amount) [] : List (String × Dec)) = byCatFold filtered from rfl, hv] at hval
  simp only [Option.getD_some, List.lookup_nil, Option.getD_none] at hval
  rw [hval]
  have h0 : (⟨0, 0⟩ : Dec).val = 0 := by
    rw [Dec.val]
    norm_num
  rw [h0, zero_add]

/-! ### Lemmas: `next_id` -/

theorem foldl_max_ge (xs : List Expense) (a : Int) :
    a ≤ xs.foldl (fun acc e => max acc e.id) a ∧
      ∀ e ∈ xs, e.id ≤ xs.foldl (fun acc e => max acc e.id) a := by
  induction xs generalizing a with
  | nil => simp
  | cons x rest ih =>
    rw [List.foldl_cons]
    have h1 := (ih (max a x.id)).1
    have h2 := (ih (max a x.id)).2
    constructor
    · calc a ≤ max a x.id := le_max_left _ _
        _ ≤ _ := h1
    · intro e he
      rcases List.mem_cons.1 he with he' | hm
      · subst he'
        calc e.id ≤ max a e.id := le_max_right _ _
          _ ≤ _ := h1
      · exact h2 e hm

theorem foldl_max_mem (xs : List Expense) (a : Int) :
    xs.foldl (fun acc e => max acc e.id) a = a ∨
      ∃ e ∈ xs, xs.foldl (fun acc e => max acc e.id) a = e.id := by
  induction xs generalizing a with
  | nil =>
    left
    rfl
  | cons x rest ih =>
    rw [List.foldl_cons]
    rcases ih (max a x.id) with h | ⟨e, he, hee⟩
    · rcases max_choice a x.id with hm | hm
      · left
        rw [h, hm]
      · right
        exact ⟨x, List.mem_cons_self _ _, by rw [h, hm]⟩
    · right
      exact ⟨e, List.mem_cons_of_mem _ he, hee⟩

/-! ### Claim-level helper definitions -/

/-- Modelled from the spec's words: a string literally of the form
`YYYY-MM` — four digits, a dash, two digits (used to compare the spec's
stated month-filter validation with the code's actual parsing). -/
def specFormYYYYMM (s : String) : Bool :=
  match splitOnCh '-' s.data with
  | [a, b] =>
    decide (a.length = 4) && a.all isDigitCh && decide (b.length = 2) && b.all isDigitCh
  | _ => false

/-- The `filtered` list `summarize_expenses` computes before reporting
(in original load order): all records when no month filter is active, the
month-matching records otherwise, and `[]` on the error/empty paths. -/
def summarizeFiltered (es : List Expense) (month : Option String) : List Expense :=
  if es = [] then []
  else if month.getD "" = "" then es
  else
    match pyMonth (month.getD "") with
    | none => []
    | some ym => es.filter (matchesMonth ym.1 ym.2)

/-! ### The claims -/

/-- C10: with an empty loaded record collection, `summarize_expenses`
reports the "no expenses" outcome immediately for every month argument,
malformed ones included — the month filter is never validated. -/
theorem claim10_empty_shortcut :
    ∀ month : Option String, summarize_expenses [] month = .noExpenses :=
  fun _ => rfl

/-- C5: `next_id` returns 1 for the empty sequence and `max(id) + 1` for a
non-empty sequence (it exceeds every existing id and equals some id plus
one), so a newly assigned id never equals an existing record's id. -/
theorem claim5_next_id (es : List Expense) :
    next_id [] = 1 ∧
      (∀ e ∈ es, e.id < next_id es) ∧
      (es ≠ [] → ∃ e ∈ es, next_id es = e.id + 1) ∧
      (∀ e ∈ es, e.id ≠ next_id es) := by
  have hlt : ∀ e ∈ es, e.id < next_id es := by
    intro e he
    cases es with
    | nil => cases he
    | cons x xs =>
      rw [next_id]
      have h1 := (foldl_max_ge xs x.id).1
      have h2 := (foldl_max_ge xs x.id).2
      rcases List.mem_cons.1 he with he' | hm
      · subst he'
        omega
      · have := h2 e hm
        omega
  refine ⟨rfl, hlt, ?_, fun e he h => by have := hlt e he; omega⟩
  intro hne
  cases es with
  | nil => exact absurd rfl hne
  | cons x xs =>
    rw [next_id]
    rcases foldl_max_mem xs x.id with h | ⟨e, he, hee⟩
    · exact ⟨x, List.mem_cons_self _ _, by rw [h]⟩
    · exact ⟨e, List.mem_cons_of_mem _ he, by rw [hee]⟩

/-- Witness for C5 at a concrete two-record list. -/
theorem claim5_next_id_witness :
    ∃ e ∈ ([⟨3, none, "a", ⟨0, 0⟩, "USD", ""⟩, ⟨7, none, "b", ⟨0, 0⟩, "USD", ""⟩] :
      List Expense), next_id [⟨3, none, "a", ⟨0, 0⟩, "USD", ""⟩,
        ⟨7, none, "b", ⟨0, 0⟩, "USD", ""⟩] = e.id + 1 :=
  (claim5_next_id [⟨3, none, "a", ⟨0, 0⟩, "USD", ""⟩,
    ⟨7, none, "b", ⟨0, 0⟩, "USD", ""⟩]).2.2.1 (by decide)

/-- C4: with unique ids, deleting a present id removes exactly that record
(size `n − 1`, id absent, all others unchanged in original relative order:
the result is the original list with the one record cut out), while
deleting an absent id reports not-found and never produces a saved list. -/
theorem claim4_delete (es : List Expense) (eid : Int)
    (hu : (es.map Expense.id).Nodup) :
    (∀ l1 e l2, es = l1 ++ e :: l2 → e.id = eid →
        delete_expense es eid = .deleted (l1 ++ l2) ∧
          (l1 ++ l2).length + 1 = es.length ∧
          ∀ x ∈ l1 ++ l2, x.id ≠ eid) ∧
      ((∀ e ∈ es, e.id ≠ eid) →
        (∀ l, delete_expense es eid ≠ .deleted l) ∧
          (es ≠ [] → delete_expense es eid = .notFound)) := by
  constructor
  · rintro l1 e l2 rfl rfl
    rw [List.map_append, List.map_cons, List.nodup_append] at hu
    obtain ⟨hn1, hn2, hdisj⟩ := hu
    have hnotin1 : ∀ x ∈ l1, x.id ≠ e.id := by
      intro x hx h
      exact hdisj (h ▸ List.mem_map_of_mem Expense.id hx) (List.mem_cons_self _ _)
    have hnotin2 : ∀ x ∈ l2, x.id ≠ e.id := by
      intro x hx h
      rw [List.nodup_cons] at hn2
      exact hn2.1 (h ▸ List.mem_map_of_mem Expense.id hx)
    have hfilter : (l1 ++ e :: l2).filter (fun x => x.id ≠ e.id) = l1 ++ l2 := by
      rw [List.filter_append]
      have h1 : l1.filter (fun x => x.id ≠ e.id) = l1 :=
        List.filter_eq_self.2 (fun a ha => by
          simp only [ne_eq, decide_not, Bool.not_eq_true', decide_eq_false_iff_not]
          exact hnotin1 a ha)
      have h2 : (e :: l2).filter (fun x => x.id ≠ e.id) = l2 := by
        rw [List.filter_cons_of_neg (by simp)]
        exact List.filter_eq_self.2 (fun a ha => by
          simp only [ne_eq, decide_not, Bool.not_eq_true', decide_eq_false_iff_not]
          exact hnotin2 a ha)
      rw [h1, h2]
    have hne : l1 ++ e :: l2 ≠ [] := by simp
    rw [delete_expense, if_neg hne]
    try simp only []
    rw [hfilter]
    have hlen : (l1 ++ l2).length + 1 = (l1 ++ e :: l2).length := by
      simp only [List.length_append, List.length_cons]
      omega
    rw [if_neg (by omega)]
    refine ⟨rfl, hlen, ?_⟩
    intro x hx h
    rcases List.mem_append.1 hx with hm | hm
    · exact hnotin1 x hm h
    · exact hnotin2 x hm h
  · intro habs
    have hfilter : es.filter (fun x => x.id ≠ eid) = es :=
      List.filter_eq_self.2 (fun a ha => by
        simp only [ne_eq, decide_not, Bool.not_eq_true', decide_eq_false_iff_not]
        exact habs a ha)
    by_cases hne : es = []
    · subst hne
      constructor
      · intro l h
        have h0 : delete_expense [] eid = DeleteResult.noExpenses := rfl
        rw [h0] at h
        cases h
      · intro h
        exact absurd rfl h
    · rw [delete_expense, if_neg hne]
      try simp only []
      rw [hfilter, if_pos rfl]
      constructor
      · intro l h
        cases h
      · intro _
        rfl

/-- Witness for C4 at a concrete three-record list: deleting the present
id 2 yields exactly the other two records in order. -/
theorem claim4_delete_witness :
    delete_expense ([⟨1, none, "a", ⟨0, 0⟩, "USD", ""⟩, ⟨2, none, "b", ⟨0, 0⟩, "USD", ""⟩,
        ⟨3, none, "c", ⟨0, 0⟩, "USD", ""⟩] : List Expense) 2 =
      .deleted [⟨1, none, "a", ⟨0, 0⟩, "USD", ""⟩, ⟨3, none, "c", ⟨0, 0⟩, "USD", ""⟩] :=
  ((claim4_delete [⟨1, none, "a", ⟨0, 0⟩, "USD", ""⟩, ⟨2, none, "b", ⟨0, 0⟩, "USD", ""⟩,
      ⟨3, none, "c", ⟨0, 0⟩, "USD", ""⟩] 2 (by decide)).1
    [⟨1, none, "a", ⟨0, 0⟩, "USD", ""⟩] ⟨2, none, "b", ⟨0, 0⟩, "USD", ""⟩
    [⟨3, none, "c", ⟨0, 0⟩, "USD", ""⟩] rfl rfl).1

/-- C1 (amended): for a valid record set whose category, currency and
description carry no leading/trailing whitespace, loading after saving
returns the set exactly — every id, date, amount (to the same
representation, hence the same numeric value), category, currency and
description is preserved. -/
theorem claim1_round_trip (R : List Expense)
    (hids : (R.map Expense.id).Nodup)
    (hval : ∀ e ∈ R, validExpense e)
    (htrim : ∀ e ∈ R, trimmedExpense e) :
    load_expenses (save_expenses R) = R :=
  load_save_of_valid_trimmed R (fun e he => ⟨hval e he, htrim e he⟩)

/-- Witness for C1 at a concrete one-record set (dated, decimal amount
`10.10`). -/
theorem claim1_round_trip_witness :
    load_expenses (save_expenses ([⟨1, some ⟨2025, 10, 1⟩, "food", ⟨1010, -2⟩, "USD",
        "lunch"⟩] : List Expense)) =
      [⟨1, some ⟨2025, 10, 1⟩, "food", ⟨1010, -2⟩, "USD", "lunch"⟩] :=
  claim1_round_trip [⟨1, some ⟨2025, 10, 1⟩, "food", ⟨1010, -2⟩, "USD", "lunch"⟩]
    (by decide)
    (by
      intro e he
      rw [List.mem_singleton] at he
      subst he
      refine ⟨by decide, ?_, by decide, by decide⟩
      intro dt h
      injection h with h2
      rw [← h2]
      decide)
    (by
      intro e he
      rw [List.mem_singleton] at he
      subst he
      exact ⟨by decide, by decide, by decide⟩)

/-- C1 counterexample: the claim as stated fails — a valid record (unique
positive id, non-empty category and currency, free-text description) whose
description has surrounding whitespace is not preserved by
`LoadAll(SaveAll(·))`, because the load strips it. -/
theorem claim1_counterexample :
    load_expenses (save_expenses ([⟨1, none, "food", ⟨0, 0⟩, "USD", " hi "⟩] :
        List Expense)) ≠
      [⟨1, none, "food", ⟨0, 0⟩, "USD", " hi "⟩] ∧
    (0 : Int) < 1 ∧ ("food" : String) ≠ "" ∧ ("USD" : String) ≠ "" := by
  decide

/-- C9: a row whose id cell is empty or non-numeric is dropped from
`load_expenses` without aborting the load (the remaining rows parse as if
the bad row were absent, in file order), and a kept row gets the per-field
defaults: blank/unparseable date becomes absent, blank/unparseable amount
becomes `0`, blank category becomes `"uncategorized"`, blank currency
becomes `"USD"`. -/
theorem claim9_malformed_rows (l1 l2 : List Row) (bad : Row)
    (hbad : bad.id = "" ∨ pyInt bad.id = none)
    (row : Row) (rows : List Row) (n : Int) (hid : pyInt row.id = some n) :
    load_expenses (l1 ++ bad :: l2) = load_expenses (l1 ++ l2) ∧
      ∃ e, load_expenses (row :: rows) = e :: load_expenses rows ∧
        e.id = n ∧
        ((pyStrip row.date = "" ∨ pyDate (pyStrip row.date) = none) → e.date = none) ∧
        ((pyStrip row.amount = "" ∨ pyDec (pyStrip row.amount) = none) →
          e.amount = ⟨0, 0⟩) ∧
        (pyStrip row.category = "" → e.category = "uncategorized") ∧
        (pyStrip row.currency = "" → e.currency = "USD") := by
  have hbadnone : parseRow bad = none := by
    rw [parseRow]
    by_cases h0 : bad.id = ""
    · rw [if_pos h0]
    · rw [if_neg h0]
      rcases hbad with h | h
      · exact absurd h h0
      · rw [h]
  constructor
  · rw [load_expenses, load_expenses, List.filterMap_append, List.filterMap_append,
      List.filterMap_cons_none hbadnone]
  · have hne : row.id ≠ "" := by
      intro h
      rw [h] at hid
      have h0 : pyInt "" = none := rfl
      rw [h0] at hid
      cases hid
    refine ⟨{ id := n
              date := if pyStrip row.date = "" then none else pyDate (pyStrip row.date)
              category := if pyStrip row.category = "" then "uncategorized"
                else pyStrip row.category
              amount := if pyStrip row.amount = "" then ⟨0, 0⟩
                else (pyDec (pyStrip row.amount)).getD ⟨0, 0⟩
              currency := if pyStrip row.currency = "" then "USD" else pyStrip row.currency
              description := pyStrip row.description }, ?_, rfl, ?_, ?_, ?_, ?_⟩
    · rw [load_expenses, load_expenses]
      apply List.filterMap_cons_some
      rw [parseRow, if_neg hne, hid]
    · intro h
      try simp only []
      rcases h with h | h
      · rw [if_pos h]
      · by_cases h0 : pyStrip row.date = ""
        · rw [if_pos h0]
        · rw [if_neg h0, h]
    · intro h
      try simp only []
      rcases h with h | h
      · rw [if_pos h]
      · by_cases h0 : pyStrip row.amount = ""
        · rw [if_pos h0]
        · rw [if_neg h0, h]
          rfl
    · intro h
      try simp only []
      rw [if_pos h]
    · intro h
      try simp only []
      rw [if_pos h]

/-- Witness for C9: a row with non-numeric id `"x"` between two good rows
is skipped while both good rows load. -/
theorem claim9_malformed_rows_witness :
    load_expenses ([⟨"1", "", "a", "1", "USD", ""⟩] ++ ⟨"x", "", "b", "2", "USD", ""⟩ ::
        [⟨"3", "", "c", "4", "USD", ""⟩]) =
      load_expenses ([⟨"1", "", "a", "1", "USD", ""⟩] ++ [⟨"3", "", "c", "4", "USD", ""⟩]) :=
  (claim9_malformed_rows [⟨"1", "", "a", "1", "USD", ""⟩] [⟨"3", "", "c", "4", "USD", ""⟩]
    ⟨"x", "", "b", "2", "USD", ""⟩ (Or.inr (by decide))
    ⟨"1", "", "a", "1", "USD", ""⟩ [] 1 (by decide)).1

/-- C2: for every filtered record set that produces a summary, the total is
the exact sum of the amounts and each category's subtotal is the exact sum
of that category's amounts (as exact rationals — no floating point); in
particular 10.10 + 0.20 + 5.00 is exactly 15.30. -/
theorem claim2_sum_exactness :
    (∀ (title : String) (filtered : List Expense) (t : String) (total : Dec)
        (bc : List (String × Dec)) (cur : String),
        finishSummary title filtered = .summary t total bc cur →
          total.val = (filtered.map (fun e => e.amount.val)).sum ∧
            ∀ c ∈ filtered.map Expense.category,
              ∃ v, bc.lookup c = some v ∧
                v.val = ((filtered.filter (fun e => e.category = c)).map
                  (fun e => e.amount.val)).sum) ∧
      (decSum [⟨1010, -2⟩, ⟨20, -2⟩, ⟨500, -2⟩]).val = 153 / 10 := by
  constructor
  · intro title filtered t total bc cur h
    cases filtered with
    | nil =>
      rw [finishSummary] at h
      exact (SummarizeResult.noConfusion h)
    | cons first rest =>
      rw [finishSummary] at h
      injection h with h1 h2 h3 h4
      constructor
      · rw [← h2, decSum_val, List.map_map]
        rfl
      · intro c hc
        rw [← h3]
        exact byCatFold_spec (first :: rest) c hc
  · have h1 : decSum [⟨1010, -2⟩, ⟨20, -2⟩, ⟨500, -2⟩] = (⟨1530, -2⟩ : Dec) := by decide
    rw [h1, Dec.val]
    norm_num

/-- Witness for C2: the summary produced from a single 10.10 record has the
exact total 10.10. -/
theorem claim2_sum_exactness_witness :
    (decSum (([⟨1, none, "food", ⟨1010, -2⟩, "USD", ""⟩] : List Expense).map
        Expense.amount)).val =
      (([⟨1, none, "food", ⟨1010, -2⟩, "USD", ""⟩] : List Expense).map
        (fun e => e.amount.val)).sum :=
  (claim2_sum_exactness.1 "T" [⟨1, none, "food", ⟨1010, -2⟩, "USD", ""⟩] "T"
    (decSum (([⟨1, none, "food", ⟨1010, -2⟩, "USD", ""⟩] : List Expense).map
      Expense.amount))
    (byCatFold [⟨1, none, "food", ⟨1010, -2⟩, "USD", ""⟩]) "USD" rfl).1

/-- C3: with a parsed month filter `(y, m)`, the filtered set contains
exactly the records whose date is present with that year and month; an
empty filtered set yields the explicit "no expenses" outcome (not a
zero-valued summary), and a produced summary's total is the exact sum of
the included amounts. -/
theorem claim3_month_filter (es : List Expense) (s : String) (y m : Int)
    (hne : es ≠ []) (hsne : s ≠ "") (hs : pyMonth s = some (y, m)) :
    (∀ e, e ∈ es.filter (matchesMonth y m) ↔
        e ∈ es ∧ ∃ d, e.date = some d ∧ (d.y : Int) = y ∧ (d.m : Int) = m) ∧
      (es.filter (matchesMonth y m) = [] →
        summarize_expenses es (some s) = .emptyScope (summaryTitle y m) ∧
          ∀ t total bc cur, summarize_expenses es (some s) ≠ .summary t total bc cur) ∧
      (∀ t total bc cur, summarize_expenses es (some s) = .summary t total bc cur →
        total.val = ((es.filter (matchesMonth y m)).map (fun e => e.amount.val)).sum) := by
  have hsumm : summarize_expenses es (some s) =
      finishSummary (summaryTitle y m) (es.filter (matchesMonth y m)) := by
    rw [summarize_expenses, if_neg hne]
    try simp only []
    rw [Option.getD_some, if_neg hsne, hs]
  refine ⟨?_, ?_, ?_⟩
  · intro e
    rw [List.mem_filter]
    constructor
    · rintro ⟨hmem, hmatch⟩
      refine ⟨hmem, ?_⟩
      rw [matchesMonth] at hmatch
      cases hd : e.date with
      | none =>
        rw [hd] at hmatch
        cases hmatch
      | some d =>
        rw [hd] at hmatch
        simp only [Bool.and_eq_true, beq_iff_eq] at hmatch
        exact ⟨d, rfl, hmatch.1, hmatch.2⟩
    · rintro ⟨hmem, d, hd, hy, hm⟩
      refine ⟨hmem, ?_⟩
      rw [matchesMonth, hd]
      simp [hy, hm]
  · intro hempty
    rw [hsumm, hempty, finishSummary]
    exact ⟨rfl, fun t total bc cur h => SummarizeResult.noConfusion h⟩
  · intro t total bc cur h
    rw [hsumm] at h
    cases hf : es.filter (matchesMonth y m) with
    | nil =>
      rw [hf] at h
      rw [finishSummary] at h
      exact (SummarizeResult.noConfusion h)
    | cons first rest =>
      rw [hf] at h
      rw [finishSummary] at h
      injection h with h1 h2 h3 h4
      rw [← h2, decSum_val, List.map_map]
      rfl

/-- Witness for C3 at the spec's example: records dated 2025-10-01,
2025-10-31, 2025-11-01 filtered by "2025-10" give the exact total 10.30. -/
theorem claim3_month_filter_witness :
    (⟨1030, -2⟩ : Dec).val =
      ((([⟨1, some ⟨2025, 10, 1⟩, "food", ⟨1010, -2⟩, "USD", ""⟩,
          ⟨2, some ⟨2025, 10, 31⟩, "food", ⟨20, -2⟩, "USD", ""⟩,
          ⟨3, some ⟨2025, 11, 1⟩, "rent", ⟨500, -2⟩, "USD", ""⟩] : List Expense).filter
        (matchesMonth 2025 10)).map (fun e => e.amount.val)).sum :=
  (claim3_month_filter [⟨1, some ⟨2025, 10, 1⟩, "food", ⟨1010, -2⟩, "USD", ""⟩,
      ⟨2, some ⟨2025, 10, 31⟩, "food", ⟨20, -2⟩, "USD", ""⟩,
      ⟨3, some ⟨2025, 11, 1⟩, "rent", ⟨500, -2⟩, "USD", ""⟩] "2025-10" 2025 10
    (by decide) (by decide) (by decide)).2.2 "Summary for 2025-10" ⟨1030, -2⟩
    [("food", ⟨1030, -2⟩)] "USD" (by decide)

/-- C6 (amended): the listed output is date-descending (absent dates count
as `date.min`) and truncated to `limit`; every record with no date appears
after every record whose date is strictly later than `date.min` — a tie at
`date.min` (a record actually dated 0001-01-01) keeps original order, so a
no-date record may precede it. -/
theorem claim6_sort (es : List Expense) (limit : Nat) (out : List Expense)
    (h : list_expenses es limit = some out) :
    out.length ≤ limit ∧
      List.Pairwise (fun a b => dateLe (dkey b) (dkey a) = true) out ∧
      ∀ (i j : Fin out.length) (dd : Date), (out.get i).date = none →
        (out.get j).date = some dd → dateLe dateMin dd = true → dd ≠ dateMin →
        (j : Nat) < (i : Nat) := by
  rw [list_expenses] at h
  by_cases hne : es = []
  · rw [if_pos hne] at h
    cases h
  · rw [if_neg hne] at h
    injection h with h2
    have hout : out = (sortDesc es).take limit := h2.symm
    subst hout
    refine ⟨?_, ?_, ?_⟩
    · rw [List.length_take]
      exact min_le_left _ _
    · exact List.Pairwise.sublist (List.take_sublist _ _) (sortDesc_sorted es)
    · intro i j dd hi hj hge hnemin
      have hsp : List.Pairwise (fun a b => dateLe (dkey b) (dkey a) = true)
          ((sortDesc es).take limit) :=
        List.Pairwise.sublist (List.take_sublist limit (sortDesc es)) (sortDesc_sorted es)
      have hp := List.pairwise_iff_get.1 hsp
      rcases Nat.lt_trichotomy (j : Nat) (i : Nat) with hlt | heq | hgt
      · exact hlt
      · exfalso
        have : j = i := Fin.ext heq
        rw [this, hi] at hj
        cases hj
      · exfalso
        have hij : i < j := hgt
        have hle := hp i j hij
        simp only [dkey] at hle
        rw [hi, hj, Option.getD_none, Option.getD_some] at hle
        exact hnemin (dateLe_antisymm hle hge)

/-- Witness for C6 on a concrete list: the output respects the limit. -/
theorem claim6_sort_witness :
    ([⟨1, none, "a", ⟨0, 0⟩, "USD", ""⟩,
      ⟨2, some ⟨1, 1, 1⟩, "b", ⟨0, 0⟩, "USD", ""⟩] : List Expense).length ≤ 20 :=
  (claim6_sort [⟨1, none, "a", ⟨0, 0⟩, "USD", ""⟩,
      ⟨2, some ⟨1, 1, 1⟩, "b", ⟨0, 0⟩, "USD", ""⟩] 20
    [⟨1, none, "a", ⟨0, 0⟩, "USD", ""⟩, ⟨2, some ⟨1, 1, 1⟩, "b", ⟨0, 0⟩, "USD", ""⟩]
    (by decide)).1

/-- C6 counterexample: the claim as stated fails — with a no-date record
listed before a record dated 0001-01-01 (= `date.min`), the sort keeps the
no-date record first, so a record with no date appears before a record
that has a date. -/
theorem claim6_counterexample :
    list_expenses ([⟨1, none, "a", ⟨0, 0⟩, "USD", ""⟩,
        ⟨2, some ⟨1, 1, 1⟩, "b", ⟨0, 0⟩, "USD", ""⟩] : List Expense) 20 =
      some [⟨1, none, "a", ⟨0, 0⟩, "USD", ""⟩,
        ⟨2, some ⟨1, 1, 1⟩, "b", ⟨0, 0⟩, "USD", ""⟩] ∧
    (⟨1, none, "a", ⟨0, 0⟩, "USD", ""⟩ : Expense).date = none ∧
    (⟨2, some ⟨1, 1, 1⟩, "b", ⟨0, 0⟩, "USD", ""⟩ : Expense).date = some ⟨1, 1, 1⟩ := by
  decide

/-- C7 (amended): a supplied non-empty month filter is validated only by
splitting on `-` and parsing the first two parts as integers: exactly the
strings this parse rejects are reported as format errors (aborting the
summary), while any string it accepts — not only `YYYY-MM` — proceeds. -/
theorem claim7_month_validation (es : List Expense) (s : String) (y m : Int)
    (hne : es ≠ []) (hsne : s ≠ "") :
    (pyMonth s = none → summarize_expenses es (some s) = .invalidMonth) ∧
      (pyMonth s = some (y, m) → summarize_expenses es (some s) ≠ .invalidMonth) := by
  constructor
  · intro hp
    rw [summarize_expenses, if_neg hne]
    try simp only []
    rw [Option.getD_some, if_neg hsne, hp]
  · intro hp
    rw [summarize_expenses, if_neg hne]
    try simp only []
    rw [Option.getD_some, if_neg hsne, hp]
    dsimp only
    cases hf : es.filter (matchesMonth y m) with
    | nil =>
      rw [finishSummary]
      exact fun hx => SummarizeResult.noConfusion hx
    | cons a l =>
      rw [finishSummary]
      exact fun hx => SummarizeResult.noConfusion hx

/-- Witness for C7: the malformed month "abc" is reported as a format
error on a non-empty record list. -/
theorem claim7_month_validation_witness :
    summarize_expenses ([⟨1, none, "a", ⟨0, 0⟩, "USD", ""⟩] : List Expense)
        (some "abc") = .invalidMonth :=
  (claim7_month_validation [⟨1, none, "a", ⟨0, 0⟩, "USD", ""⟩] "abc" 0 0
    (by decide) (by decide)).1 (by decide)

/-- C7 counterexample: the claim as stated fails — "2025-10-05" is not of
the form `YYYY-MM`, yet `summarize_expenses` accepts it (treating it as
2025-10) and produces a summary instead of reporting an error. -/
theorem claim7_counterexample :
    specFormYYYYMM "2025-10-05" = false ∧
      summarize_expenses ([⟨1, some ⟨2025, 10, 1⟩, "food", ⟨1010, -2⟩, "USD", ""⟩] :
          List Expense) (some "2025-10-05") =
        .summary "Summary for 2025-10" ⟨1010, -2⟩ [("food", ⟨1010, -2⟩)] "USD" := by
  decide

/-- C8 (amended): the currency displayed by a produced summary is the
currency of the first record of the filtered set in its original (load)
order — not the first after date-descending sorting. -/
theorem claim8_currency (es : List Expense) (month : Option String) (t : String)
    (total : Dec) (bc : List (String × Dec)) (cur : String)
    (h : summarize_expenses es month = .summary t total bc cur) :
    summarizeFiltered es month ≠ [] ∧
      cur = ((summarizeFiltered es month).head?.map Expense.currency).getD "USD" := by
  by_cases hne : es = []
  · rw [summarize_expenses, if_pos hne] at h
    exact (SummarizeResult.noConfusion h)
  · rw [summarize_expenses, if_neg hne] at h
    try simp only [] at h
    rw [summarizeFiltered, if_neg hne]
    try simp only []
    by_cases hm : month.getD "" = ""
    · rw [if_pos hm] at h
      rw [if_pos hm]
      cases hes : es with
      | nil => exact absurd hes hne
      | cons a l =>
        rw [hes] at h
        rw [finishSummary] at h
        injection h with h1 h2 h3 h4
        rw [← h4]
        exact ⟨by simp, by simp⟩
    · rw [if_neg hm] at h
      rw [if_neg hm]
      cases hp : pyMonth (month.getD "") with
      | none =>
        rw [hp] at h
        exact (SummarizeResult.noConfusion h)
      | some ym =>
        rw [hp] at h
        dsimp only at h ⊢
        cases hf : es.filter (matchesMonth ym.1 ym.2) with
        | nil =>
          rw [hf] at h
          rw [finishSummary] at h
          exact (SummarizeResult.noConfusion h)
        | cons a l =>
          rw [hf] at h
          rw [finishSummary] at h
          injection h with h1 h2 h3 h4
          rw [← h4]
          exact ⟨by simp, by simp⟩

/-- Witness for C8: an all-time summary over two records displays the
currency of the first record in load order. -/
theorem claim8_currency_witness :
    summarizeFiltered ([⟨1, some ⟨2025, 1, 1⟩, "a", ⟨100, -2⟩, "EUR", ""⟩,
        ⟨2, some ⟨2025, 12, 31⟩, "b", ⟨200, -2⟩, "JPY", ""⟩] : List Expense) none ≠ [] ∧
      "EUR" = ((summarizeFiltered ([⟨1, some ⟨2025, 1, 1⟩, "a", ⟨100, -2⟩, "EUR", ""⟩,
        ⟨2, some ⟨2025, 12, 31⟩, "b", ⟨200, -2⟩, "JPY", ""⟩] : List Expense)
          none).head?.map Expense.currency).getD "USD" :=
  claim8_currency [⟨1, some ⟨2025, 1, 1⟩, "a", ⟨100, -2⟩, "EUR", ""⟩,
      ⟨2, some ⟨2025, 12, 31⟩, "b", ⟨200, -2⟩, "JPY", ""⟩] none
    "Summary (all time)" ⟨300, -2⟩ [("a", ⟨100, -2⟩), ("b", ⟨200, -2⟩)] "EUR" (by decide)

/-- C8 counterexample: the claim as stated fails — the summary displays
"EUR" (currency of the first record in file order) although the first
record after date-descending sorting carries "JPY". -/
theorem claim8_counterexample :
    summarize_expenses ([⟨1, some ⟨2025, 1, 1⟩, "a", ⟨100, -2⟩, "EUR", ""⟩,
        ⟨2, some ⟨2025, 12, 31⟩, "b", ⟨200, -2⟩, "JPY", ""⟩] : List Expense) none =
      .summary "Summary (all time)" ⟨300, -2⟩ [("a", ⟨100, -2⟩), ("b", ⟨200, -2⟩)]
        "EUR" ∧
    (sortDesc [⟨1, some ⟨2025, 1, 1⟩, "a", ⟨100, -2⟩, "EUR", ""⟩,
        ⟨2, some ⟨2025, 12, 31⟩, "b", ⟨200, -2⟩, "JPY", ""⟩]).map Expense.currency =
      ["JPY", "EUR"] ∧ ("EUR" : String) ≠ "JPY" := by
  decide

end ExpenseTracker
